import Mathlib

/-
Verification of the matrix-completion helpers of the master-thesis repository.

Numbers are modelled as `Flt := Option ℚ`: `none` plays the role of the IEEE
NaN sentinel used by the code to mark missing matrix entries, and `some q`
is an ordinary (idealised, exact) floating-point value.  The arithmetic
operations propagate NaN and every comparison involving NaN is false,
exactly as in IEEE arithmetic; rounding is not modelled.  Matrices are
total functions on `Fin n`.  The contents of the uninitialised buffer that
`np.empty_like` returns inside `constructSymmetricMatrix` are unspecified,
so that buffer is passed as an explicit argument `buf`.  The unseeded
`random.sample` call inside `deleteValues` is modelled by passing the
sampled index list explicitly; any duplicate-free list of in-range indices
of the right length is an admissible sample.
-/

namespace Helpers

/-- Idealised floating-point value: `none` is NaN, `some q` a real value. -/
abbrev Flt := Option ℚ

/-- Addition, propagating NaN. -/
def fadd : Flt → Flt → Flt
  | some a, some b => some (a + b)
  | _, _ => none

/-- Subtraction, propagating NaN. -/
def fsub : Flt → Flt → Flt
  | some a, some b => some (a - b)
  | _, _ => none

/-- Multiplication, propagating NaN. -/
def fmul : Flt → Flt → Flt
  | some a, some b => some (a * b)
  | _, _ => none

/-- Absolute value, propagating NaN. -/
def fabs : Flt → Flt
  | some a => some |a|
  | none => none

/-- Comparison `a <= b`; false whenever either side is NaN (IEEE semantics). -/
def fle : Flt → Flt → Bool
  | some a, some b => decide (a ≤ b)
  | _, _ => false

/-- Square matrix of idealised floats. -/
abbrev Mat (n : ℕ) := Fin n → Fin n → Flt

/-- Embedding of a NaN-free rational matrix into `Mat`. -/
def matQ {n : ℕ} (M : Fin n → Fin n → ℚ) : Mat n := fun i j => some (M i j)

/-- helpers.isSymmetric (helpers.py line 125): np.allclose(x, x.T, rtol, atol),
which holds iff every entry pair satisfies
abs (x i j - x j i) <= atol + rtol * abs (x j i); NaN anywhere makes the
elementwise check false. -/
def isSymmetric {n : ℕ} (x : Mat n) (rtol atol : ℚ) : Bool :=
  decide (∀ i j : Fin n,
    fle (fabs (fsub (x i j) (x j i)))
        (fadd (some atol) (fmul (some rtol) (fabs (x j i)))) = true)

/-- The buffer x_sym of helpers.constructSymmetricMatrix after line 120:
np.empty_like(x) leaves unspecified contents `buf`, and the assignment
x_sym[np.triu_indices(n, k=0)] = x[np.triu_indices(n, k=0)] overwrites the
upper triangle (including the diagonal) with x. -/
def upperWithBuf {n : ℕ} (buf x : Mat n) : Mat n :=
  fun i j => if i ≤ j then x i j else buf i j

/-- helpers.constructSymmetricMatrix (helpers.py lines 113-122):
x_sym = np.empty_like(x) is an uninitialised buffer `buf`; the upper
triangle (including the diagonal) of x is copied into it, and the result is
x_sym + x_sym.T - np.diag(np.diag(x_sym)).  The strict lower triangle of
the uninitialised buffer enters the sum. -/
def constructSymmetricMatrix {n : ℕ} (buf x : Mat n) : Mat n :=
  fun i j => fsub (fadd (upperWithBuf buf x i j) (upperWithBuf buf x j i))
                  (if i = j then upperWithBuf buf x i j else some 0)

/-- helpers.constructSymmetricIfNotSymmetric (helpers.py lines 93-102):
returns x unchanged when isSymmetric x (with its default tolerances
rtol = atol = 1e-5) holds, otherwise rebuilds via constructSymmetricMatrix. -/
def constructSymmetricIfNotSymmetric {n : ℕ} (buf x : Mat n) : Mat n :=
  if isSymmetric x (1 / 100000) (1 / 100000) then x
  else constructSymmetricMatrix buf x

/-- Number of positions int(fraction * x.size) that helpers.deleteValues
(helpers.py line 262) perturbs; for fraction >= 0 Python's int() truncation
agrees with the floor. -/
def sampleCount (f : ℚ) (size : ℕ) : ℕ := (Int.floor (f * (size : ℚ))).toNat

/-- helpers.deleteValues (helpers.py lines 253-265) on the flattened array:
a deep copy of x with every position of the sampled index list `mask` set
to NaN (np.put), all other entries untouched. -/
def deleteValues {N : ℕ} (x : Fin N → Flt) (mask : List ℕ) : Fin N → Flt :=
  fun k => if k.val ∈ mask then none else x k

/-- helpers.diag_add (helpers.py lines 164-170): K.flat[::K.shape[-1]+1] += diag,
i.e. the entry at flat position i*n+j is incremented exactly when that
position is a multiple of the stride n+1. -/
def diag_add {n : ℕ} (K : Mat n) (d : ℚ) : Mat n :=
  fun i j => if (n + 1) ∣ (i.val * n + j.val) then fadd (K i j) (some d) else K i j

/-- Number of classes Y.max() + 1 of helpers.oneHotEncoding (line 87),
with the maximum of the (non-negative) label list taken by folding max. -/
def numClasses (Y : List ℕ) : ℕ := Y.foldr max 0 + 1

/-- helpers.oneHotEncoding (helpers.py lines 81-90): a (len Y) x numClasses
matrix initialised to -1 everywhere, after the scatter assignment
Y_1hot[arange(len Y), Y] = 1 which sets entry (i, Y[i]) to 1 for every i. -/
def oneHotEncoding (Y : List ℕ) : Fin Y.length → Fin (numClasses Y) → ℚ :=
  fun r c => if ∃ i : Fin Y.length, r = i ∧ c.val = Y.get i then 1 else (-1 : ℚ)

/-- Operand precisions accepted by the solver wrappers. -/
inductive DType
  | float32
  | float64
deriving DecidableEq

/-- helpers.solve_system (helpers.py lines 139-148) reduced to its precision
guard: the assert at line 141 tests only Y.dtype == torch.float64; the dtype
of Kxx is never inspected, and on success the scipy least-squares call runs
(abstracted to ok). -/
def solve_system (kxxDtype yDtype : DType) : Except String Unit :=
  if yDtype = DType.float64 then Except.ok ()
  else Except.error "AssertionError"

/-- helpers.solve_system_old (helpers.py lines 151-161) precision guard:
asserts Kxx.dtype == float64 and Y.dtype == float64. -/
def solve_system_old (kxxDtype yDtype : DType) : Except String Unit :=
  if kxxDtype = DType.float64 ∧ yDtype = DType.float64 then Except.ok ()
  else Except.error "AssertionError"

/-- helpers.computeRMSE (helpers.py lines 231-239) in exact arithmetic:
sqrt of the sum of squared entry differences divided by the number of
entries x.shape[0] * x.shape[1]. -/
noncomputable def computeRMSE {m n : ℕ} (x y : Fin m → Fin n → ℚ) : ℝ :=
  Real.sqrt (((∑ i, ∑ j, (x i j - y i j) ^ 2) / ((m : ℚ) * (n : ℚ)) : ℚ) : ℝ)

/-- helpers.deleteValues as called on a matrix (np.put works on the
flattened view, flat position of (i, j) being i*n+j). -/
def matDeleteValues {n : ℕ} (x : Mat n) (mask : List ℕ) : Mat n :=
  fun i j => if i.val * n + j.val ∈ mask then none else x i j

/-- The matrices that the computation > 1.0 branch of classify_gp.main
hands to solve_system / print_accuracy, plus the symmetry booleans it
prints (classify_gp.py lines 57-115). -/
structure ScoringInputs (n : ℕ) where
  svdInput : Mat n
  softInput : Mat n
  mfInput : Mat n
  origInput : Mat n
  symmetryReport : Bool × Bool × Bool

/-- Data flow of the computation > 1.0 branch of classify_gp.main
(classify_gp.py lines 57-97): Kxx is symmetrised, perturbed by
deleteValues, reconstructed by the three completion strategies (imported
from the external matrix_factorization package, hence abstract function
parameters here), the symmetry of each reconstruction is computed for the
printout at lines 82-84, and the raw reconstructions are the matrices
passed to solve_system at lines 95-97. -/
def completionBranch {n : ℕ} (svd soft mf : Mat n → Mat n)
    (buf Kxx : Mat n) (mask : List ℕ) : ScoringInputs n :=
  let Kxx_symm := constructSymmetricIfNotSymmetric buf Kxx
  let Kxx_perturbated := matDeleteValues Kxx_symm mask
  let Kxx_svd := svd Kxx_perturbated
  let Kxx_soft := soft Kxx_perturbated
  let Kxx_mf := mf Kxx_perturbated
  ⟨Kxx_svd, Kxx_soft, Kxx_mf, Kxx_symm,
    (isSymmetric Kxx_svd (1 / 100000) (1 / 100000),
     isSymmetric Kxx_soft (1 / 100000) (1 / 100000),
     isSymmetric Kxx_mf (1 / 100000) (1 / 100000))⟩

/-- Concrete 2x2 matrix [[1,2],[3,4]]. -/
def M1 : Mat 2 := fun i j =>
  some (if i.val = 0 then (if j.val = 0 then 1 else 2)
        else (if j.val = 0 then 3 else 4))

/-- A possible content of the np.empty_like buffer: 5 at position (1,0). -/
def G1 : Mat 2 := fun i j => some (if i.val = 1 ∧ j.val = 0 then 5 else 0)

/-- The 2x2 zero matrix, also the luckiest possible np.empty_like content. -/
def Z2 : Mat 2 := fun _ _ => some 0

/-- A matrix within the default isSymmetric tolerance of its transpose but
not exactly symmetric: entry (0,1) is 1e-7, entry (1,0) is 0. -/
def M5 : Mat 2 := fun i j =>
  some (if i.val = 0 ∧ j.val = 1 then 1 / 10000000 else 0)

/-- A clearly asymmetric matrix: entry (0,1) is 5, entry (1,0) is 0. -/
def Mns : Mat 2 := fun i j => some (if i.val = 0 ∧ j.val = 1 then 5 else 0)

/-- A matrix with NaN at the mirrored positions (0,1) and (1,0). -/
def Mnan : Mat 2 := fun i j =>
  if (i.val = 0 ∧ j.val = 1) ∨ (i.val = 1 ∧ j.val = 0) then none else some 1

/-- An asymmetric reconstruction: entry (0,1) is 1, entry (1,0) is 0. -/
def badRecon : Mat 2 := fun i j => some (if i.val = 0 ∧ j.val = 1 then 1 else 0)

/-- A completion strategy producing the asymmetric reconstruction. -/
def badSVD : Mat 2 → Mat 2 := fun _ => badRecon

/-- A completion strategy returning its input. -/
def idStrat : Mat 2 → Mat 2 := fun K => K

/-- Concrete flat array of four entries 0, 1, 2, 3. -/
def x4 : Fin 4 → Flt := fun k => some (k.val : ℚ)

/-- Concrete 1x1 zero matrix over the rationals. -/
def xw : Fin 1 → Fin 1 → ℚ := fun _ _ => 0

/-- Concrete 1x1 all-ones difference matrix over the rationals. -/
def Dw : Fin 1 → Fin 1 → ℚ := fun _ _ => 1

lemma fadd_comm (a b : Flt) : fadd a b = fadd b a := by
  cases a <;> cases b <;> simp [fadd, add_comm]

lemma fadd_zero_right (a : Flt) : fadd a (some 0) = a := by
  cases a <;> simp [fadd]

lemma fadd_zero_left (a : Flt) : fadd (some 0) a = a := by
  cases a <;> simp [fadd]

lemma fsub_zero_right (a : Flt) : fsub a (some 0) = a := by
  cases a <;> simp [fsub]

lemma fsub_fadd_self (a : Flt) : fsub (fadd a a) a = a := by
  cases a <;> simp [fadd, fsub]

/-- The output of constructSymmetricMatrix is always exactly symmetric,
whatever the buffer contains: the formula A + A.T - diag(diag A) is. -/
lemma constructSymmetricMatrix_symm {n : ℕ} (buf x : Mat n) (i j : Fin n) :
    constructSymmetricMatrix buf x i j = constructSymmetricMatrix buf x j i := by
  unfold constructSymmetricMatrix
  by_cases h : i = j
  · subst h; rfl
  · have h' : ¬ j = i := fun hji => h hji.symm
    simp only [h, h', if_false]
    rw [fadd_comm]

/-- On an exactly symmetric matrix, constructSymmetricMatrix is the
identity provided the buffer is zero below the diagonal. -/
lemma constructSymmetricMatrix_fixed {n : ℕ} (buf S : Mat n)
    (hbuf : ∀ i j : Fin n, j < i → buf i j = some 0)
    (hS : ∀ i j, S i j = S j i) :
    constructSymmetricMatrix buf S = S := by
  funext i j
  unfold constructSymmetricMatrix upperWithBuf
  rcases lt_trichotomy i j with hij | hij | hij
  · have h1 : i ≤ j := le_of_lt hij
    have h2 : ¬ j ≤ i := not_le_of_lt hij
    have hne : ¬ i = j := ne_of_lt hij
    simp only [h1, if_true, h2, if_false, hne]
    rw [hbuf j i hij, fadd_zero_right, fsub_zero_right]
  · subst hij
    simp only [le_refl, if_true]
    exact fsub_fadd_self _
  · have h1 : ¬ i ≤ j := not_le_of_lt hij
    have h2 : j ≤ i := le_of_lt hij
    have hne : ¬ i = j := fun hc => absurd hc.symm (ne_of_lt hij)
    simp only [h1, if_false, h2, if_true, hne]
    rw [hbuf i j hij, fadd_zero_left, fsub_zero_right]
    exact (hS i j).symm ▸ rfl

/-- np.allclose is false as soon as one entry is NaN. -/
lemma isSymmetric_false_of_none {n : ℕ} (M : Mat n) (rtol atol : ℚ)
    (i0 j0 : Fin n) (h : M i0 j0 = none) :
    isSymmetric M rtol atol = false := by
  unfold isSymmetric
  rw [decide_eq_false_iff_not]
  intro hall
  have hthis := hall i0 j0
  rw [h] at hthis
  cases hMji : M j0 i0 <;> simp [fsub, fabs, fle] at hthis

/-- The flat positions hit by the stride-(n+1) slice of diag_add are
exactly the diagonal: for i, j < n, (n+1) divides i*n+j iff i = j. -/
lemma stride_dvd_iff {n : ℕ} (i j : Fin n) :
    (n + 1) ∣ (i.val * n + j.val) ↔ i = j := by
  constructor
  · intro hdvd
    rcases le_or_lt i.val j.val with hle | hlt
    · obtain ⟨d, hd⟩ := le_iff_exists_add.mp hle
      have hrw : i.val * n + j.val = i.val * (n + 1) + d := by rw [hd]; ring
      rw [hrw] at hdvd
      have hd0 : (n + 1) ∣ d :=
        (Nat.dvd_add_right (dvd_mul_left (n + 1) i.val)).mp hdvd
      have hdlt : d < n + 1 := by
        have := j.isLt
        omega
      have hzero : d = 0 := Nat.eq_zero_of_dvd_of_lt hd0 hdlt
      exact Fin.ext (by omega)
    · obtain ⟨d, hd⟩ := le_iff_exists_add.mp (le_of_lt hlt)
      have hrw : i.val * n + j.val = j.val * (n + 1) + d * n := by rw [hd]; ring
      rw [hrw] at hdvd
      have hdn : (n + 1) ∣ d * n :=
        (Nat.dvd_add_right (dvd_mul_left (n + 1) j.val)).mp hdvd
      have hcop : Nat.Coprime (n + 1) n :=
        Nat.coprime_self_add_left.mpr (Nat.coprime_one_left n)
      have hd0 : (n + 1) ∣ d := hcop.dvd_of_dvd_mul_right hdn
      have hdlt : d < n + 1 := by
        have := i.isLt
        omega
      have hzero : d = 0 := Nat.eq_zero_of_dvd_of_lt hd0 hdlt
      exact Fin.ext (by omega)
  · rintro rfl
    exact ⟨i.val, by ring⟩

lemma mem_le_foldr_max (Y : List ℕ) : ∀ l ∈ Y, l ≤ Y.foldr max 0 := by
  induction Y with
  | nil => intro l h; cases h
  | cons a t ih =>
    intro l hl
    rcases List.mem_cons.mp hl with rfl | hm
    · exact le_max_left _ _
    · exact le_trans (ih l hm) (le_max_right _ _)

lemma foldr_max_mem (Y : List ℕ) (h : Y ≠ []) : Y.foldr max 0 ∈ Y := by
  induction Y with
  | nil => exact absurd rfl h
  | cons a t ih =>
    cases t with
    | nil => simp
    | cons b t' =>
      rcases le_total a ((b :: t').foldr max 0) with hle | hle
      · have hmem := ih (by simp)
        rw [List.foldr_cons, max_eq_right hle]
        exact List.mem_cons_of_mem a hmem
      · rw [List.foldr_cons, max_eq_left hle]
        exact List.mem_cons_self a _

/-- C1: constructSymmetricMatrix is claimed to return U + U.T - diag(U)
with U the upper triangle of its input, so entry (1,0) of the result on
M1 = [[1,2],[3,4]] should be M1[0,1] = 2 regardless of anything else; in
fact the np.empty_like buffer is never zeroed, its strict lower triangle
leaks into the sum, and with buffer content 5 at (1,0) the code produces
5 + 2 = 7 there, while the same call with a zero buffer produces 2. -/
theorem C1_uninitialized_buffer :
    constructSymmetricMatrix G1 M1 1 0 = some 7 ∧
    constructSymmetricMatrix Z2 M1 1 0 = some 2 ∧
    M1 0 1 = some 2 := by
  refine ⟨?_, ?_, ?_⟩
  · norm_num [constructSymmetricMatrix, upperWithBuf, G1, M1, fadd, fsub, Fin.le_def]
  · norm_num [constructSymmetricMatrix, upperWithBuf, Z2, M1, fadd, fsub, Fin.le_def]
  · norm_num [M1]

/-- C3: solve_system is claimed to raise a precision error when either
operand is not float64; the assert at helpers.py line 141 inspects only
Y.dtype, so a float32 Kxx with a float64 Y sails through to the scipy
least-squares call (silent cast), whereas the older solve_system_old
rejects the same pair. -/
theorem C3_precision_guard_gap :
    solve_system DType.float32 DType.float64 = Except.ok () ∧
    solve_system_old DType.float32 DType.float64 = Except.error "AssertionError" := by
  exact ⟨rfl, rfl⟩

/-- C4: on a NaN-free square matrix, isSymmetric M rtol atol is true iff
every entry pair satisfies abs (M i j - M j i) <= atol + rtol * abs (M j i),
for arbitrary tolerances. -/
theorem C4_isSymmetric_iff {n : ℕ} (M : Fin n → Fin n → ℚ) (rtol atol : ℚ) :
    isSymmetric (matQ M) rtol atol = true ↔
      ∀ i j : Fin n, |M i j - M j i| ≤ atol + rtol * |M j i| := by
  unfold isSymmetric matQ
  rw [decide_eq_true_iff]
  constructor
  · intro h i j
    have hij := h i j
    simpa [fsub, fabs, fadd, fmul, fle] using hij
  · intro h i j
    simpa [fsub, fabs, fadd, fmul, fle] using h i j

/-- C5 counterexample: the claimed idempotence
symmetrize (symmetrize_if_needed M) = symmetrize_if_needed M fails at
M5 = [[0, 1e-7],[0, 0]] even with the most favourable (all-zero)
np.empty_like buffer: M5 passes the tolerance-based isSymmetric check, so
symmetrize_if_needed returns it unchanged, but symmetrize then overwrites
the lower-triangle 0 with 1e-7. -/
theorem C5_counterexample :
    constructSymmetricMatrix Z2 (constructSymmetricIfNotSymmetric Z2 M5) ≠
      constructSymmetricIfNotSymmetric Z2 M5 := by
  have hsym : isSymmetric M5 (1 / 100000) (1 / 100000) = true := by
    simp only [isSymmetric, decide_eq_true_iff]
    intro i j
    fin_cases i <;> fin_cases j <;>
      norm_num [M5, fle, fabs, fsub, fadd, fmul, abs_of_nonneg]
  have hid : constructSymmetricIfNotSymmetric Z2 M5 = M5 := by
    unfold constructSymmetricIfNotSymmetric
    rw [hsym]
    simp
  rw [hid]
  intro hcontra
  have h10 := congrFun (congrFun hcontra 1) 0
  norm_num [constructSymmetricMatrix, upperWithBuf, M5, Z2, fadd, fsub,
    Fin.le_def] at h10

/-- C5 (amended): when the np.empty_like buffer happens to be zero below
the diagonal, constructSymmetricIfNotSymmetric returns M unchanged
whenever isSymmetric M holds (with the default tolerances 1e-5), and
whenever isSymmetric M fails its result is a fixed point of
constructSymmetricMatrix; the fixed-point equation does not extend to
matrices that pass the tolerance check without being exactly symmetric. -/
theorem C5_symmetrize_if_needed {n : ℕ} (M buf : Mat n)
    (hbuf : ∀ i j : Fin n, j < i → buf i j = some 0) :
    (isSymmetric M (1 / 100000) (1 / 100000) = true →
      constructSymmetricIfNotSymmetric buf M = M) ∧
    (isSymmetric M (1 / 100000) (1 / 100000) = false →
      constructSymmetricMatrix buf (constructSymmetricIfNotSymmetric buf M) =
        constructSymmetricIfNotSymmetric buf M) := by
  constructor
  · intro h
    unfold constructSymmetricIfNotSymmetric
    rw [h]
    simp
  · intro h
    have hres : constructSymmetricIfNotSymmetric buf M =
        constructSymmetricMatrix buf M := by
      unfold constructSymmetricIfNotSymmetric
      rw [h]
      simp
    rw [hres]
    exact constructSymmetricMatrix_fixed buf _ hbuf
      (constructSymmetricMatrix_symm buf M)

/-- C5 witness: the amended statement at the asymmetric matrix Mns with a
zero buffer. -/
theorem C5_symmetrize_if_needed_witness :
    isSymmetric Mns (1 / 100000) (1 / 100000) = false ∧
    constructSymmetricMatrix Z2 (constructSymmetricIfNotSymmetric Z2 Mns) =
      constructSymmetricIfNotSymmetric Z2 Mns := by
  have hfalse : isSymmetric Mns (1 / 100000) (1 / 100000) = false := by
    simp only [isSymmetric, decide_eq_false_iff_not]
    intro hall
    have h := hall 0 1
    norm_num [Mns, fle, fabs, fsub, fadd, fmul] at h
  exact ⟨hfalse, (C5_symmetrize_if_needed Mns Z2 (fun _ _ _ => rfl)).2 hfalse⟩

/-- C8: diag_add adds d exactly to each diagonal entry K i i and leaves
every off-diagonal entry unchanged; the stride-(n+1) slice of the
flattened matrix hits exactly the diagonal positions. -/
theorem C8_diag_add {n : ℕ} (K : Mat n) (d : ℚ) (i j : Fin n) :
    diag_add K d i j = if i = j then fadd (K i j) (some d) else K i j := by
  unfold diag_add
  by_cases h : i = j
  · subst h
    rw [if_pos ((stride_dvd_iff i i).mpr rfl), if_pos rfl]
  · rw [if_neg (fun hd => h ((stride_dvd_iff i j).mp hd)), if_neg h]

/-- C10: a square matrix with at least one NaN entry is never accepted by
isSymmetric, for any tolerances and even when the NaNs sit at mirrored
positions, and consequently constructSymmetricIfNotSymmetric never
returns such a matrix unchanged: it always rebuilds it through
constructSymmetricMatrix. -/
theorem C10_nan_matrix {n : ℕ} (M buf : Mat n) (rtol atol : ℚ)
    (i0 j0 : Fin n) (hnan : M i0 j0 = none) :
    isSymmetric M rtol atol = false ∧
    constructSymmetricIfNotSymmetric buf M = constructSymmetricMatrix buf M := by
  refine ⟨isSymmetric_false_of_none M rtol atol i0 j0 hnan, ?_⟩
  unfold constructSymmetricIfNotSymmetric
  rw [isSymmetric_false_of_none M (1 / 100000) (1 / 100000) i0 j0 hnan]
  simp

/-- C10 witness: the matrix Mnan with NaN at the mirrored positions (0,1)
and (1,0). -/
theorem C10_nan_matrix_witness :
    isSymmetric Mnan (1 / 1000) (1 / 1000) = false ∧
    constructSymmetricIfNotSymmetric Z2 Mnan = constructSymmetricMatrix Z2 Mnan :=
  C10_nan_matrix Mnan Z2 (1 / 1000) (1 / 1000) 0 1 (by norm_num [Mnan])

/-- C2: deleteValues on an array of size N with fraction f between 0 and 1
and an admissible random.sample outcome (a duplicate-free list of
int(f * N) in-range flat indices) returns a copy with NaN exactly at the
sampled positions and the original value everywhere else, so exactly
int(f * N) positions are set to NaN; with f = 0 the result equals the
input and with f = 1 every entry is NaN.  The sample may be any subset of
the N flattened cells, not restricted to a triangle or off-diagonal. -/
theorem C2_deleteValues {N : ℕ} (x : Fin N → Flt) (f : ℚ) (mask : List ℕ)
    (hf0 : 0 ≤ f) (hf1 : f ≤ 1) (hnodup : mask.Nodup)
    (hbound : ∀ m ∈ mask, m < N) (hlen : mask.length = sampleCount f N) :
    (∀ k : Fin N, k.val ∈ mask → deleteValues x mask k = none) ∧
    (∀ k : Fin N, k.val ∉ mask → deleteValues x mask k = x k) ∧
    (Finset.univ.filter (fun k : Fin N => k.val ∈ mask)).card = sampleCount f N ∧
    (f = 0 → deleteValues x mask = x) ∧
    (f = 1 → ∀ k : Fin N, deleteValues x mask k = none) := by
  refine ⟨?_, ?_, ?_, ?_, ?_⟩
  · intro k hk
    simp [deleteValues, hk]
  · intro k hk
    simp [deleteValues, hk]
  · have hcard : (Finset.univ.filter (fun k : Fin N => k.val ∈ mask)).card =
        mask.toFinset.card := by
      apply Finset.card_bij (fun k _ => k.val)
      · intro a ha
        simp only [Finset.mem_filter, Finset.mem_univ, true_and] at ha
        simpa using ha
      · intro a _ b _ hab
        exact Fin.ext hab
      · intro b hb
        simp only [List.mem_toFinset] at hb
        exact ⟨⟨b, hbound b hb⟩, by simp [hb], rfl⟩
    rw [hcard, List.toFinset_card_of_nodup hnodup, hlen]
  · intro hf
    subst hf
    have hsc : sampleCount 0 N = 0 := by simp [sampleCount]
    have hm : mask = [] := List.length_eq_zero.mp (by rw [hlen, hsc])
    subst hm
    funext k
    simp [deleteValues]
  · intro hf
    subst hf
    have hsc : sampleCount 1 N = N := by simp [sampleCount]
    intro k
    have hsub : mask.toFinset ⊆ Finset.range N := by
      intro m hm
      simp only [List.mem_toFinset] at hm
      exact Finset.mem_range.mpr (hbound m hm)
    have hcard : (Finset.range N).card ≤ mask.toFinset.card := by
      rw [Finset.card_range, List.toFinset_card_of_nodup hnodup, hlen, hsc]
    have heq : mask.toFinset = Finset.range N :=
      Finset.eq_of_subset_of_card_le hsub hcard
    have hkmem : k.val ∈ mask := by
      have hmem : k.val ∈ mask.toFinset := heq ▸ Finset.mem_range.mpr k.isLt
      simpa using hmem
    simp [deleteValues, hkmem]

/-- C2 witness: the array x4 of size 4, fraction 1/2 and the admissible
sample [0, 3]. -/
theorem C2_deleteValues_witness :
    deleteValues x4 [0, 3] 0 = none ∧ deleteValues x4 [0, 3] 1 = x4 1 := by
  have h := C2_deleteValues x4 (1 / 2) [0, 3] (by norm_num) (by norm_num)
    (by simp) (by simp) (by norm_num [sampleCount]; rfl)
  exact ⟨h.1 0 (by simp), h.2.1 1 (by simp)⟩

/-- C9: for a non-empty list Y of labels, oneHotEncoding Y is the
(len Y) x (max Y + 1) matrix whose row r holds +1 in column Y r and -1 in
every other column (a plus-minus-one encoding, not 0/1); the class count
numClasses Y equals the maximum label plus one, and every label, in
particular Y r, lies within the column range. -/
theorem C9_oneHotEncoding (Y : List ℕ) (hY : Y ≠ []) (r : Fin Y.length)
    (c : Fin (numClasses Y)) :
    oneHotEncoding Y r c = (if c.val = Y.get r then 1 else -1) ∧
    Y.get r < numClasses Y ∧
    (∀ l ∈ Y, l < numClasses Y) ∧
    numClasses Y = Y.foldr max 0 + 1 ∧ Y.foldr max 0 ∈ Y := by
  refine ⟨?_, ?_, ?_, rfl, foldr_max_mem Y hY⟩
  · unfold oneHotEncoding
    by_cases h : c.val = Y.get r
    · rw [if_pos ⟨r, rfl, h⟩, if_pos h]
    · rw [if_neg ?_, if_neg h]
      rintro ⟨i, rfl, hc⟩
      exact h hc
  · exact Nat.lt_succ_of_le (mem_le_foldr_max Y _ (Y.get_mem r.val r.isLt))
  · intro l hl
    exact Nat.lt_succ_of_le (mem_le_foldr_max Y l hl)

/-- C9 witness: the label list [1, 0], row 0, column 1. -/
theorem C9_oneHotEncoding_witness :
    ([1, 0] : List ℕ) ≠ [] ∧
    oneHotEncoding [1, 0] ⟨0, by norm_num⟩ ⟨1, by norm_num [numClasses]⟩ = 1 := by
  have h := C9_oneHotEncoding [1, 0] (by simp) ⟨0, by norm_num⟩
    ⟨1, by norm_num [numClasses]⟩
  exact ⟨by simp, by simpa using h.1⟩

/-- C6: for non-empty shapes, computeRMSE is zero exactly when the two
matrices agree entrywise, is symmetric in its arguments, and scales
linearly when the elementwise difference is scaled by a non-negative
constant c. -/
theorem C6_computeRMSE {m n : ℕ} (hm : 0 < m) (hn : 0 < n) :
    (∀ x y : Fin m → Fin n → ℚ, computeRMSE x y = 0 ↔ x = y) ∧
    (∀ x y : Fin m → Fin n → ℚ, computeRMSE x y = computeRMSE y x) ∧
    (∀ (x D : Fin m → Fin n → ℚ) (c : ℚ), 0 ≤ c →
      computeRMSE x (fun i j => x i j + c * D i j) =
        c * computeRMSE x (fun i j => x i j + D i j)) := by
  have hmn : (0 : ℚ) < (m : ℚ) * (n : ℚ) := by
    have hm' : (0 : ℚ) < (m : ℚ) := by exact_mod_cast hm
    have hn' : (0 : ℚ) < (n : ℚ) := by exact_mod_cast hn
    exact mul_pos hm' hn'
  refine ⟨?_, ?_, ?_⟩
  · intro x y
    unfold computeRMSE
    constructor
    · intro h
      have hSnn : (0 : ℚ) ≤ ∑ i, ∑ j, (x i j - y i j) ^ 2 :=
        Finset.sum_nonneg fun i _ => Finset.sum_nonneg fun j _ => sq_nonneg _
      have hqnn : (0 : ℚ) ≤ (∑ i, ∑ j, (x i j - y i j) ^ 2) / ((m : ℚ) * (n : ℚ)) :=
        div_nonneg hSnn (le_of_lt hmn)
      have hq : ((∑ i, ∑ j, (x i j - y i j) ^ 2) / ((m : ℚ) * (n : ℚ)) : ℚ) = 0 := by
        have := (Real.sqrt_eq_zero (by exact_mod_cast hqnn)).mp h
        exact_mod_cast this
      have hS : (∑ i, ∑ j, (x i j - y i j) ^ 2 : ℚ) = 0 := by
        rcases div_eq_zero_iff.mp hq with hS | hzero
        · exact hS
        · exact absurd hzero (ne_of_gt hmn)
      funext i j
      have hrow := (Finset.sum_eq_zero_iff_of_nonneg
        (fun i _ => Finset.sum_nonneg fun j _ => sq_nonneg
          (x i j - y i j))).mp hS i (Finset.mem_univ i)
      have hcell := (Finset.sum_eq_zero_iff_of_nonneg
        (fun j _ => sq_nonneg (x i j - y i j))).mp hrow j (Finset.mem_univ j)
      have := pow_eq_zero_iff (n := 2) (by norm_num) |>.mp hcell
      linarith [sub_eq_zero.mp this]
    · rintro rfl
      simp [Real.sqrt_zero]
  · intro x y
    unfold computeRMSE
    have hsum : (∑ i, ∑ j, (x i j - y i j) ^ 2 : ℚ) =
        ∑ i, ∑ j, (y i j - x i j) ^ 2 :=
      Finset.sum_congr rfl fun i _ => Finset.sum_congr rfl fun j _ => by ring
    rw [hsum]
  · intro x D c hc
    unfold computeRMSE
    have hsum1 : (∑ i, ∑ j, (x i j - (x i j + c * D i j)) ^ 2 : ℚ) =
        c ^ 2 * ∑ i, ∑ j, (D i j) ^ 2 := by
      rw [Finset.mul_sum]
      refine Finset.sum_congr rfl fun i _ => ?_
      rw [Finset.mul_sum]
      exact Finset.sum_congr rfl fun j _ => by ring
    have hsum2 : (∑ i, ∑ j, (x i j - (x i j + D i j)) ^ 2 : ℚ) =
        ∑ i, ∑ j, (D i j) ^ 2 :=
      Finset.sum_congr rfl fun i _ => Finset.sum_congr rfl fun j _ => by ring
    rw [hsum1, hsum2]
    have hcast : ((c ^ 2 * ∑ i, ∑ j, (D i j) ^ 2) / ((m : ℚ) * (n : ℚ)) : ℚ) =
        (c : ℚ) ^ 2 * ((∑ i, ∑ j, (D i j) ^ 2) / ((m : ℚ) * (n : ℚ))) := by
      ring
    rw [hcast]
    push_cast
    rw [Real.sqrt_mul (by positivity), Real.sqrt_sq (by exact_mod_cast hc)]

/-- C6 witness: the scaling law at the 1x1 zero matrix, difference Dw and
scale 2. -/
theorem C6_computeRMSE_witness :
    (0 : ℚ) ≤ 2 ∧
    computeRMSE xw (fun i j => xw i j + 2 * Dw i j) =
      2 * computeRMSE xw (fun i j => xw i j + Dw i j) :=
  ⟨by norm_num,
    (C6_computeRMSE Nat.one_pos Nat.one_pos).2.2 xw Dw 2 (by norm_num)⟩

/-- C7 counterexample: a completion strategy whose reconstruction badRecon
is not exactly symmetric; in the computation > 1.0 branch the matrix used
for scoring is badRecon itself, unchanged, and differs from what the
SymmetryEngine would have produced, so the reconstruction is not passed
through the SymmetryEngine before scoring. -/
theorem C7_counterexample :
    (completionBranch badSVD idStrat idStrat Z2 Z2 []).svdInput = badRecon ∧
    (completionBranch badSVD idStrat idStrat Z2 Z2 []).svdInput 0 1 ≠
      (completionBranch badSVD idStrat idStrat Z2 Z2 []).svdInput 1 0 ∧
    (completionBranch badSVD idStrat idStrat Z2 Z2 []).svdInput ≠
      constructSymmetricIfNotSymmetric Z2
        ((completionBranch badSVD idStrat idStrat Z2 Z2 []).svdInput) := by
  have hraw : (completionBranch badSVD idStrat idStrat Z2 Z2 []).svdInput =
      badRecon := rfl
  refine ⟨hraw, ?_, ?_⟩
  · rw [hraw]
    norm_num [badRecon]
  · rw [hraw]
    have hfalse : isSymmetric badRecon (1 / 100000) (1 / 100000) = false := by
      simp only [isSymmetric, decide_eq_false_iff_not]
      intro hall
      have h := hall 0 1
      norm_num [badRecon, fle, fabs, fsub, fadd, fmul] at h
    intro hcontra
    have h10 := congrFun (congrFun hcontra 1) 0
    rw [show constructSymmetricIfNotSymmetric Z2 badRecon =
        constructSymmetricMatrix Z2 badRecon by
      unfold constructSymmetricIfNotSymmetric
      rw [hfalse]
      simp] at h10
    norm_num [constructSymmetricMatrix, upperWithBuf, badRecon, Z2, fadd, fsub,
      Fin.le_def] at h10

/-- C7 (amended): in the computation > 1.0 branch only the initial kernel
Kxx is symmetrised (before perturbation); the matrices handed to
solve_system for scoring are the raw outputs of the three completion
strategies applied to the perturbed symmetrised kernel, with no
symmetrisation in between, and the isSymmetric value of each
reconstruction is computed only for the printed report. -/
theorem C7_scoring_inputs {n : ℕ} (svd soft mf : Mat n → Mat n)
    (buf Kxx : Mat n) (mask : List ℕ) :
    (completionBranch svd soft mf buf Kxx mask).origInput =
      constructSymmetricIfNotSymmetric buf Kxx ∧
    (completionBranch svd soft mf buf Kxx mask).svdInput =
      svd (matDeleteValues (constructSymmetricIfNotSymmetric buf Kxx) mask) ∧
    (completionBranch svd soft mf buf Kxx mask).softInput =
      soft (matDeleteValues (constructSymmetricIfNotSymmetric buf Kxx) mask) ∧
    (completionBranch svd soft mf buf Kxx mask).mfInput =
      mf (matDeleteValues (constructSymmetricIfNotSymmetric buf Kxx) mask) ∧
    (completionBranch svd soft mf buf Kxx mask).symmetryReport =
      (isSymmetric (svd (matDeleteValues (constructSymmetricIfNotSymmetric buf Kxx) mask))
         (1 / 100000) (1 / 100000),
       isSymmetric (soft (matDeleteValues (constructSymmetricIfNotSymmetric buf Kxx) mask))
         (1 / 100000) (1 / 100000),
       isSymmetric (mf (matDeleteValues (constructSymmetricIfNotSymmetric buf Kxx) mask))
         (1 / 100000) (1 / 100000)) :=
  ⟨rfl, rfl, rfl, rfl, rfl⟩

end Helpers
